import Mathlib

/-!
Shallow embedding of the PPE detection worker (`src/zi_v_82/modules/ppe_worker.py`)
and the dashboard stats relay / snapshot query (`src/zi_v_83/routers/dashboard.py`).

Conventions of the embedding:
* Confidence scores are rationals (`ℚ`); the Python floats only ever enter
  comparisons against the threshold, so exact rationals model them.
* Redis side effects are recorded as an explicit trace (`Effect`): `zadd` into
  the `ppe_logs` sorted set, `incr` of a counter key, the optional update
  callback, and the single model-`predict` invocation per image.
* `cv2.imread` and `self.model.predict` are opaque capabilities, modelled as
  functions in an `Env` record; images are opaque handles (`Nat`).
* `int(time.time())` is modelled as a constant clock value (`Env.now`) during
  the processing of one entry.
* A possible store failure of `redis.zadd` (an exception raised while
  persisting one task's record) is modelled by a predicate `zaddOk`; the Python
  loop has no try/except, so a raise aborts the remaining iterations, which the
  `Exc` variant mirrors by stopping with success flag `false`.
-/

namespace Zi

/-- One raw detection box as read by the worker from `res.boxes.data.tolist()`:
only the confidence and the class index are used (the `xyxy` coordinates are
destructured and dropped). -/
structure Box where
  conf : ℚ
  cls : Nat
deriving DecidableEq

/-- A parsed work-queue / legacy-log entry, restricted to the JSON fields the
worker reads: `ppe_tasks`, `path`, `cam_id`, `track_id`, `ts`.  `none` models
an absent key. -/
structure Entry where
  ppe_tasks : Option (List String)
  path : Option String
  cam_id : Option Nat
  track_id : Option Nat
  ts : Option Nat
deriving DecidableEq

/-- The slice of `self.cfg` the worker reads in `_process_entry`:
`track_ppe` (default task list) and `helmet_conf_thresh` (threshold). -/
structure Cfg where
  track_ppe : Option (List String)
  helmet_conf_thresh : Option ℚ
deriving DecidableEq

/-- The JSON object written into the `ppe_logs` sorted set for one task
(the dict `log` built in `_process_entry`); its zadd score is `ts`. -/
structure LogRecord where
  ts : Nat
  cam_id : Option Nat
  track_id : Option Nat
  status : String
  conf : ℚ
  path : String
deriving DecidableEq

/-- One observable side effect of processing an entry. -/
inductive Effect where
  | predict (img : Nat)
  | zadd (r : LogRecord)
  | incr (key : String)
  | callback
deriving DecidableEq

/-- The opaque capabilities of the worker: snapshot directory, image loading
(`cv2.imread`, `none` when unreadable), per-image raw detection boxes
(`self.model.predict(...)`), the class-index-to-label map (`self.model.names`),
the clock, and whether an `update_callback` was supplied. -/
structure Env where
  snap_dir : String
  readImage : String → Option Nat
  boxes : Nat → List Box
  names : Nat → String
  now : Nat
  hasCb : Bool

/-- Python dict lookup `d.get(k)` on an insertion-ordered association list. -/
def dictGet (d : List (String × ℚ)) (k : String) : Option ℚ :=
  match d with
  | [] => none
  | (k2, v) :: rest => if k2 = k then some v else dictGet rest k

/-- Python dict lookup with default, `d.get(k, v0)`. -/
def dictGetD (d : List (String × ℚ)) (k : String) (v0 : ℚ) : ℚ :=
  (dictGet d k).getD v0

/-- Python dict assignment `d[k] = v`: overwrite in place or append. -/
def dictSet (d : List (String × ℚ)) (k : String) (v : ℚ) : List (String × ℚ) :=
  match d with
  | [] => [(k, v)]
  | (k2, v2) :: rest =>
    if k2 = k then (k2, v) :: rest else (k2, v2) :: dictSet rest k v

/-- The body of the scores loop of `_process_entry`, for one box:
`if conf > scores.get(label, 0): scores[label] = conf`. -/
def scoreStep (names : Nat → String) (scores : List (String × ℚ)) (b : Box) :
    List (String × ℚ) :=
  let label := names b.cls
  if dictGetD scores label 0 < b.conf then dictSet scores label b.conf
  else scores

/-- The scores loop of `_process_entry`: fold the step over all raw boxes
starting from the empty dict. -/
def buildScores (names : Nat → String) (boxes : List Box) : List (String × ℚ) :=
  boxes.foldl (scoreStep names) []

/-- `self.cfg.get("helmet_conf_thresh", 0.5)` — the single process-wide
threshold, default 0.5 (written as the reduced rational 1/2 by its raw
constructor so that the kernel can evaluate comparisons against it). -/
def thresholdOf (cfg : Cfg) : ℚ :=
  cfg.helmet_conf_thresh.getD ⟨1, 2, by decide, by decide⟩

/-- `entry.get("ppe_tasks", self.cfg.get("track_ppe", []))`. -/
def resolvedTasks (cfg : Cfg) (e : Entry) : List String :=
  e.ppe_tasks.getD (cfg.track_ppe.getD [])

/-- Split a character list on `'/'` into path components. -/
def splitComp (cs : List Char) : List (List Char) :=
  match cs with
  | [] => [[]]
  | c :: rest =>
    let r := splitComp rest
    if c = '/' then [] :: r
    else
      match r with
      | h :: t => (c :: h) :: t
      | [] => [[c]]

/-- `pathlib.Path(p).name`: the final nonempty path component (empty for `/`). -/
def basename (p : String) : String :=
  ⟨((splitComp p.data).filter (fun c => !c.isEmpty)).getLast?.getD []⟩

/-- `pathlib.Path(p).is_absolute()` on POSIX: leading slash. -/
def isAbsPath (p : String) : Bool :=
  match p.data with
  | c :: _ => decide (c = '/')
  | [] => false

/-- `img_path = Path(path); if not img_path.is_absolute(): img_path = self.snap_dir / img_path.name`. -/
def resolvePath (env : Env) (p : String) : String :=
  if isAbsPath p then p else env.snap_dir ++ "/" ++ basename p

/-- `status.startswith("no_")`. -/
def startsWithNo (s : String) : Bool :=
  "no_".data.isPrefixOf s.data

/-- The `log` dict built for one task in the loop of `_process_entry`:
confidence looked up with default 0, status by the inclusive threshold test
`conf >= threshold`, path recorded as the basename of the resolved image path. -/
def taskRecord (cfg : Cfg) (scores : List (String × ℚ)) (e : Entry) (now : Nat)
    (fname : String) (item : String) : LogRecord :=
  let conf := dictGetD scores item 0
  let status := if thresholdOf cfg ≤ conf then item else "no_" ++ item
  { ts := now, cam_id := e.cam_id, track_id := e.track_id,
    status := status, conf := conf, path := fname }

/-- The effects emitted for one task once its record persisted: the `zadd`,
the counter `incr` when the status starts with `no_`, and the callback. -/
def taskEffects (r : LogRecord) (hasCb : Bool) : List Effect :=
  Effect.zadd r ::
    ((if startsWithNo r.status then [Effect.incr (r.status ++ "_count")] else []) ++
      (if hasCb then [Effect.callback] else []))

/-- The `for item in tasks` loop of `_process_entry`, with a store-failure
model: `zaddOk r = false` means `redis.zadd` raises on that record.  The
Python loop body has no try/except, so the exception aborts the remaining
iterations; the flag in the result is `false` exactly when that happened. -/
def processTasksExc (cfg : Cfg) (scores : List (String × ℚ)) (e : Entry)
    (now : Nat) (fname : String) (hasCb : Bool) (zaddOk : LogRecord → Bool) :
    List String → List Effect × Bool
  | [] => ([], true)
  | item :: rest =>
    let r := taskRecord cfg scores e now fname item
    if zaddOk r then
      let tl := processTasksExc cfg scores e now fname hasCb zaddOk rest
      (taskEffects r hasCb ++ tl.1, tl.2)
    else ([], false)

/-- `PPEDetector._process_entry` without store failures: resolve the task
list (skip when empty), resolve and load the image (skip when absent, empty,
or unreadable), run the model once, build the per-label max-confidence map,
then evaluate every task. -/
def processEntry (env : Env) (cfg : Cfg) (e : Entry) : List Effect :=
  let tasks := resolvedTasks cfg e
  if tasks = [] then []
  else
    match e.path with
    | none => []
    | some p =>
      if p = "" then []
      else
        let imgPath := resolvePath env p
        match env.readImage imgPath with
        | none => []
        | some img =>
          Effect.predict img ::
            (processTasksExc cfg (buildScores env.names (env.boxes img)) e
              env.now (basename imgPath) env.hasCb (fun _ => true) tasks).1

/-- Records persisted into `ppe_logs` by a trace. -/
def zaddsOf (effs : List Effect) : List LogRecord :=
  effs.filterMap fun eff =>
    match eff with
    | Effect.zadd r => some r
    | _ => none

/-- One popped element of the `ppe_queue` list, by how `run` treats it:
`empty` is a falsy payload (the empty string, which `if not queued` conflates
with an exhausted queue), `bad` is a nonempty payload on which `json.loads`
raises, `good` a payload parsing to an entry object. -/
inductive QItem where
  | empty
  | bad (s : String)
  | good (e : Entry)
deriving DecidableEq

/-- The inner `while True` drain of `ppe_queue` in `PPEDetector.run`:
non-blocking lpop; a falsy payload breaks the loop, a JSON parse failure is
logged and skipped (`continue`), a parsed entry is processed.  Returns the
emitted effects and the queue contents left unpopped. -/
def drainQueue (env : Env) (cfg : Cfg) : List QItem → List Effect × List QItem
  | [] => ([], [])
  | QItem.empty :: rest => ([], rest)
  | QItem.bad _ :: rest => drainQueue env cfg rest
  | QItem.good e :: rest =>
    let r := drainQueue env cfg rest
    (processEntry env cfg e ++ r.1, r.2)

/-- Entries of the still-queued items that would parse. -/
def goodsOf : List QItem → List Entry
  | [] => []
  | QItem.good e :: rest => e :: goodsOf rest
  | _ :: rest => goodsOf rest

/-- Concatenated effects of processing a list of entries in order. -/
def effectsOfAll (env : Env) (cfg : Cfg) : List Entry → List Effect
  | [] => []
  | e :: rest => processEntry env cfg e ++ effectsOfAll env cfg rest

/-- One primitive step of the legacy-log scan, in program order: either the
watermark assignment `self.last_ts = max(self.last_ts, entry.get("ts", 0))`
or an effect of `self._process_entry(entry)`, tagged with the entry that
produced it. -/
inductive ScanOp where
  | setWm (v : Nat)
  | act (e : Entry) (eff : Effect)
deriving DecidableEq

/-- The `for entry in entries` scan loop of `PPEDetector.run` over the
legacy-log entries (score, entry), threading the watermark and recording the
primitive steps in program order: for each entry the watermark update comes
first, then the entry's effects. -/
def scanSteps (env : Env) (cfg : Cfg) : List (Nat × Entry) → Nat → Nat × List ScanOp
  | [], wm => (wm, [])
  | (_, e) :: rest, wm =>
    let wm2 := max wm (e.ts.getD 0)
    let r := scanSteps env cfg rest wm2
    (r.1, ScanOp.setWm wm2 :: ((processEntry env cfg e).map (ScanOp.act e) ++ r.2))

/-- The mutable state of one `PPEDetector` instance together with the store
lists it polls: the in-memory watermark `last_ts`, the `ppe_queue` list and
the `person_logs` sorted set (held in ascending score order). -/
structure WorkerState where
  last_ts : Nat
  queue : List QItem
  plog : List (Nat × Entry)
deriving DecidableEq

/-- One cycle of `PPEDetector.run`: drain the queue, then
`zrangebyscore("person_logs", last_ts + 1, "+inf")` and scan.  Returns the
new state, the queue-drain effects, and the scan steps. -/
def runCycle (env : Env) (cfg : Cfg) (st : WorkerState) :
    WorkerState × List Effect × List ScanOp :=
  let d := drainQueue env cfg st.queue
  let entries := st.plog.filter fun pr => decide (st.last_ts + 1 ≤ pr.1)
  let s := scanSteps env cfg entries st.last_ts
  ({ last_ts := s.1, queue := d.2, plog := st.plog }, d.1, s.2)

/-- A sequence of worker cycles; before each cycle the external producers may
push new queue items and append new legacy-log entries.  Collects the scan
steps of all cycles in order. -/
def runCyclesT (env : Env) (cfg : Cfg) :
    List (List QItem × List (Nat × Entry)) → WorkerState → WorkerState × List ScanOp
  | [], st => (st, [])
  | (nq, nl) :: rest, st =>
    let st1 : WorkerState :=
      { last_ts := st.last_ts, queue := st.queue ++ nq, plog := st.plog ++ nl }
    let c := runCycle env cfg st1
    let r := runCyclesT env cfg rest c.1
    (r.1, c.2.2 ++ r.2)

/-- The watermark value after replaying a step list from `w`. -/
def lastWm (w : Nat) : List ScanOp → Nat
  | [] => w
  | ScanOp.setWm v :: rest => lastWm v rest
  | ScanOp.act _ _ :: rest => lastWm w rest

/-- Every watermark assignment in the step list is at least the watermark
value in force just before it: no step ever lowers the watermark. -/
def WmMono (w : Nat) : List ScanOp → Prop
  | [] => True
  | ScanOp.setWm v :: rest => w ≤ v ∧ WmMono v rest
  | ScanOp.act _ _ :: rest => WmMono w rest

/-- Recognize a `ppe_logs` write. -/
def isZadd : Effect → Bool
  | Effect.zadd _ => true
  | _ => false

/-- Replaying the steps from watermark `w`: at every `ppe_logs` write of an
entry, the watermark in force already covers that entry's timestamp. -/
def AdvancedAtWrites (w : Nat) : List ScanOp → Prop
  | [] => True
  | ScanOp.setWm v :: rest => AdvancedAtWrites v rest
  | ScanOp.act e eff :: rest =>
    (isZadd eff = true → e.ts.getD 0 ≤ w) ∧ AdvancedAtWrites w rest

/-- Replaying the steps from watermark `w`: some `ppe_logs` write of an entry
happens at a point where the watermark already covers that entry's timestamp
(the negation of writes-complete-before-watermark-advance). -/
def writeAfterAdvance (w : Nat) : List ScanOp → Bool
  | [] => false
  | ScanOp.setWm v :: rest => writeAfterAdvance v rest
  | ScanOp.act e eff :: rest =>
    (isZadd eff && decide (e.ts.getD 0 ≤ w)) || writeAfterAdvance w rest

/-- One message delivered to a stats subscriber: the `gather_stats` full-state
snapshot (sent by `ws_stats` via `send_json` before its loop, computed from
live trackers/counters, not from the stream) or one forwarded stream payload. -/
inductive StatsOut where
  | snapshot
  | msg (s : String)
deriving DecidableEq

/-- `redis.xread({stream: cursor}, block=10000, count=1)` over the
`people_counter` stream, modelled as the ascending list of all messages the
stream eventually carries, each `(id, data-field)`: the first message with id
strictly after the cursor, or `none` on timeout. -/
def xreadNext (stream : List (Nat × Option String)) (cursor : Nat) :
    Option (Nat × Option String) :=
  stream.find? fun m => decide (cursor < m.1)

/-- `data = fields.get(b"data") or fields.get("data"); if data:` — the data
payloads one read yields for forwarding: none when the field is absent or
empty (falsy), else the single payload. -/
def emitData : Option String → List String
  | some d => if d = "" then [] else [d]
  | none => []

/-- The tailing loop of `ws_stats`: each iteration reads at most one message
after the cursor, advances the cursor to its id, and forwards its data field
when truthy (`if data:` skips an absent or empty field).  `fuel` bounds the
number of iterations until the client disconnects. -/
def wsTail (stream : List (Nat × Option String)) : Nat → Nat → List StatsOut
  | 0, _ => []
  | fuel + 1, cursor =>
    match xreadNext stream cursor with
    | none => wsTail stream fuel cursor
    | some m => (emitData m.2).map StatsOut.msg ++ wsTail stream fuel m.1

/-- The `event_gen` loop of `sse_stats`: identical tailing, but each forwarded
payload is framed as a server-sent event `data: <val>\n\n`. -/
def sseTail (stream : List (Nat × Option String)) : Nat → Nat → List StatsOut
  | 0, _ => []
  | fuel + 1, cursor =>
    match xreadNext stream cursor with
    | none => sseTail stream fuel cursor
    | some m =>
      (emitData m.2).map (fun d => StatsOut.msg ("data: " ++ d ++ "\n\n")) ++
        sseTail stream fuel m.1

/-- Everything `ws_stats` sends to one websocket client, in order: the
`gather_stats` snapshot first (line before the loop), then the tailed stream
messages from the initial cursor (`"$"`, i.e. the id high-water mark at
connect time). -/
def wsStats (stream : List (Nat × Option String)) (fuel cursor0 : Nat) :
    List StatsOut :=
  StatsOut.snapshot :: wsTail stream fuel cursor0

/-- Everything `sse_stats` yields to one SSE client, in order: only the tailed
stream messages — the generator body contains no snapshot send. -/
def sseStats (stream : List (Nat × Option String)) (fuel cursor0 : Nat) :
    List StatsOut :=
  sseTail stream fuel cursor0

/-- A parsed `ppe_logs` member, restricted to the fields `latest_images`
reads: `status` and `path`. -/
structure PLog where
  status : Option String
  path : Option String
deriving DecidableEq

/-- The accumulation loop of `latest_images`: append
`/snapshots/<basename>` for every entry matching the requested status with a
truthy path, breaking once `count` images are collected (the length test runs
after the append). -/
def collectImgs (status : String) (count : Nat) :
    List PLog → List String → List String
  | [], acc => acc
  | e :: rest, acc =>
    if e.status = some status ∧ e.path.getD "" ≠ "" then
      let acc2 := acc ++ ["/snapshots/" ++ basename (e.path.getD "")]
      if count ≤ acc2.length then acc2 else collectImgs status count rest acc2
    else collectImgs status count rest acc

/-- `latest_images(status, count)`: `redis.zrevrange("ppe_logs", 0, 1000)`
yields the `ppe_logs` entries in reverse-timestamp order restricted to
reverse-range indices 0..1000 — the 1001 most recent — then the collection
loop runs over that slice.  `log` is the full store content most-recent-first. -/
def latest_images (log : List PLog) (status : String) (count : Nat) :
    List String :=
  collectImgs status count (log.take 1001) []

/-! Concrete fixtures, used to evaluate the embedded operations on explicit
inputs.  Rationals are written by their raw constructor (already in lowest
terms) so the kernel can evaluate every comparison. -/

/-- 4/5, i.e. a confidence of 0.8. -/
def rA : ℚ := ⟨4, 5, by decide, by decide⟩

/-- 3/10, i.e. a confidence of 0.3. -/
def rB : ℚ := ⟨3, 10, by decide, by decide⟩

/-- 9/10, i.e. a confidence of 0.9. -/
def rC : ℚ := ⟨9, 10, by decide, by decide⟩

/-- 1/2, i.e. a confidence of exactly the default threshold 0.5. -/
def rHalf : ℚ := ⟨1, 2, by decide, by decide⟩

/-- A capability environment: every path readable as image handle 0, which
the model maps to a helmet box at 0.8 and a vest box at 0.3. -/
def envA : Env :=
  { snap_dir := "/snaps", readImage := fun _ => some 0,
    boxes := fun _ => [⟨rA, 0⟩, ⟨rB, 1⟩],
    names := fun n => if n = 0 then "helmet" else "vest",
    now := 100, hasCb := true }

/-- Like `envA` but the single helmet box scores exactly the threshold 0.5. -/
def envEq : Env :=
  { snap_dir := "/snaps", readImage := fun _ => some 0,
    boxes := fun _ => [⟨rHalf, 0⟩],
    names := fun n => if n = 0 then "helmet" else "vest",
    now := 100, hasCb := true }

/-- An environment whose model labels its box `no_phone` at 0.9: a monitored
task whose own name already starts with `no_`. -/
def envN : Env :=
  { snap_dir := "/snaps", readImage := fun _ => some 0,
    boxes := fun _ => [⟨rC, 0⟩],
    names := fun _ => "no_phone",
    now := 100, hasCb := false }

/-- Default threshold, default tasks helmet and vest. -/
def cfgA : Cfg := { track_ppe := some ["helmet", "vest"], helmet_conf_thresh := none }

/-- Config monitoring the `no_phone` task at the default threshold. -/
def cfgN : Cfg := { track_ppe := some ["no_phone"], helmet_conf_thresh := none }

/-- Config with no default task list at all. -/
def cfgEmpty : Cfg := { track_ppe := none, helmet_conf_thresh := none }

/-- A legacy-log entry at timestamp 5 with no task list of its own. -/
def entryA : Entry :=
  { ppe_tasks := none, path := some "img1.jpg", cam_id := some 1,
    track_id := some 2, ts := some 5 }

/-- An entry monitoring only the helmet task. -/
def entryH : Entry :=
  { ppe_tasks := some ["helmet"], path := some "img1.jpg", cam_id := some 1,
    track_id := some 2, ts := some 5 }

/-- A confidence map as `_process_entry` would build it from `envA`. -/
def scoresA : List (String × ℚ) := [("helmet", rA), ("vest", rB)]

/-- Store-failure model: `redis.zadd` raises exactly on the helmet record. -/
def zFailHelmet : LogRecord → Bool := fun r => !(decide (r.status = "helmet"))

/-- Store-failure model: `redis.zadd` raises exactly on the `no_vest` record. -/
def zFailVest : LogRecord → Bool := fun r => !(decide (r.status = "no_vest"))

/-- A queue with two malformed payloads around one good entry. -/
def qA : List QItem := [QItem.bad "\x7b", QItem.good entryA, QItem.bad "oops"]

/-- Worker state with `qA` queued and one unseen legacy-log entry. -/
def stA : WorkerState := { last_ts := 0, queue := qA, plog := [(5, entryA)] }

/-- A `ppe_logs` member that does not match status `no_helmet`. -/
def plogBlank : PLog := { status := some "helmet", path := some "a.jpg" }

/-- A `ppe_logs` member matching status `no_helmet`. -/
def plogDeep : PLog := { status := some "no_helmet", path := some "b.jpg" }

/-- A log whose only `no_helmet` match sits at reverse-range index 1001,
one past the slice `latest_images` reads. -/
def logDeep : List PLog := List.replicate 1001 plogBlank ++ [plogDeep]

/-! Helper lemmas. -/

theorem zaddsOf_append (l1 l2 : List Effect) :
    zaddsOf (l1 ++ l2) = zaddsOf l1 ++ zaddsOf l2 := by
  simp [zaddsOf]

theorem zaddsOf_taskEffects (r : LogRecord) (cb : Bool) :
    zaddsOf (taskEffects r cb) = [r] := by
  cases cb <;> cases h : startsWithNo r.status <;>
    simp [taskEffects, zaddsOf, h]

theorem zaddsOf_processTasks (cfg : Cfg) (scores : List (String × ℚ)) (e : Entry)
    (now : Nat) (fname : String) (cb : Bool) :
    ∀ tasks : List String,
      zaddsOf (processTasksExc cfg scores e now fname cb (fun _ => true) tasks).1
        = tasks.map (taskRecord cfg scores e now fname)
  | [] => by simp [processTasksExc, zaddsOf]
  | item :: rest => by
    simp [processTasksExc, zaddsOf_append, zaddsOf_taskEffects,
      zaddsOf_processTasks cfg scores e now fname cb rest]

theorem processEntry_eq (env : Env) (cfg : Cfg) (e : Entry) (p : String) (img : Nat)
    (hp : e.path = some p) (hne : p ≠ "")
    (himg : env.readImage (resolvePath env p) = some img)
    (ht : resolvedTasks cfg e ≠ []) :
    processEntry env cfg e =
      Effect.predict img ::
        (processTasksExc cfg (buildScores env.names (env.boxes img)) e env.now
          (basename (resolvePath env p)) env.hasCb (fun _ => true)
          (resolvedTasks cfg e)).1 := by
  simp [processEntry, hp, hne, himg, ht]

theorem mem_processTasks_of_mem (cfg : Cfg) (scores : List (String × ℚ)) (e : Entry)
    (now : Nat) (fname : String) (cb : Bool) :
    ∀ (tasks : List String) (item : String), item ∈ tasks →
      ∀ x ∈ taskEffects (taskRecord cfg scores e now fname item) cb,
        x ∈ (processTasksExc cfg scores e now fname cb (fun _ => true) tasks).1
  | [], item, h => by cases h
  | hd :: rest, item, h => by
    intro x hx
    rcases List.mem_cons.mp h with h1 | h2
    · subst h1
      simp only [processTasksExc, if_pos rfl]
      exact List.mem_append_left _ hx
    · simp only [processTasksExc, if_pos rfl]
      exact List.mem_append_right _
        (mem_processTasks_of_mem cfg scores e now fname cb rest item h2 x hx)

theorem dictGet_dictSet (k : String) (v : ℚ) (k2 : String) :
    ∀ d : List (String × ℚ),
      dictGet (dictSet d k v) k2 = if k = k2 then some v else dictGet d k2
  | [] => by
    by_cases h : k = k2 <;> simp [dictSet, dictGet, h]
  | (a, b) :: rest => by
    by_cases hak : a = k
    · subst hak
      by_cases hk2 : a = k2 <;> simp [dictSet, dictGet, hk2]
    · by_cases hk2 : a = k2
      · subst hk2
        have hne : ¬ k = a := fun h => hak h.symm
        simp [dictSet, dictGet, hak, hne]
      · simp [dictSet, dictGet, hak, hk2, dictGet_dictSet k v k2 rest]

theorem dictGetD_dictSet (k : String) (v : ℚ) (k2 : String) (d : List (String × ℚ))
    (v0 : ℚ) :
    dictGetD (dictSet d k v) k2 v0 = if k = k2 then v else dictGetD d k2 v0 := by
  unfold dictGetD
  rw [dictGet_dictSet]
  by_cases h : k = k2 <;> simp [h]

theorem dictGetD_scoreStep (names : Nat → String) (acc : List (String × ℚ))
    (b : Box) (label : String) :
    dictGetD (scoreStep names acc b) label 0
      = if names b.cls = label then max (dictGetD acc label 0) b.conf
        else dictGetD acc label 0 := by
  by_cases hl : names b.cls = label
  · subst hl
    rw [if_pos rfl]
    by_cases hc : dictGetD acc (names b.cls) 0 < b.conf
    · simp only [scoreStep, if_pos hc]
      rw [dictGetD_dictSet, if_pos rfl, max_eq_right (le_of_lt hc)]
    · simp only [scoreStep, if_neg hc]
      rw [max_eq_left (not_lt.mp hc)]
  · rw [if_neg hl]
    by_cases hc : dictGetD acc (names b.cls) 0 < b.conf
    · simp only [scoreStep, if_pos hc]
      rw [dictGetD_dictSet, if_neg hl]
    · simp only [scoreStep, if_neg hc]

theorem dictGetD_foldl_scoreStep (names : Nat → String) (label : String) :
    ∀ (boxes : List Box) (acc : List (String × ℚ)),
      dictGetD (boxes.foldl (scoreStep names) acc) label 0
        = (boxes.filter fun b => decide (names b.cls = label)).foldl
            (fun m b => max m b.conf) (dictGetD acc label 0)
  | [], acc => by simp
  | b :: rest, acc => by
    by_cases hl : names b.cls = label
    · rw [List.foldl_cons, List.filter_cons_of_pos (by simpa using hl),
        List.foldl_cons,
        dictGetD_foldl_scoreStep names label rest (scoreStep names acc b),
        dictGetD_scoreStep, if_pos hl]
    · rw [List.foldl_cons, List.filter_cons_of_neg (by simpa using hl),
        dictGetD_foldl_scoreStep names label rest (scoreStep names acc b),
        dictGetD_scoreStep, if_neg hl]

theorem dictGet_foldl_scoreStep_none (names : Nat → String) (label : String) :
    ∀ (boxes : List Box) (acc : List (String × ℚ)),
      (∀ b ∈ boxes, names b.cls ≠ label) →
      dictGet (boxes.foldl (scoreStep names) acc) label = dictGet acc label
  | [], acc, _ => rfl
  | b :: rest, acc, h => by
    have hb : names b.cls ≠ label := h b (List.mem_cons_self b rest)
    have hrest : ∀ b2 ∈ rest, names b2.cls ≠ label :=
      fun b2 hb2 => h b2 (List.mem_cons_of_mem b hb2)
    simp only [List.foldl_cons]
    rw [dictGet_foldl_scoreStep_none names label rest (scoreStep names acc b) hrest]
    by_cases hc : dictGetD acc (names b.cls) 0 < b.conf
    · simp only [scoreStep, if_pos hc]
      rw [dictGet_dictSet]
      simp [hb]
    · simp only [scoreStep, if_neg hc]

theorem lastWm_append (w : Nat) :
    ∀ l1 l2 : List ScanOp, lastWm w (l1 ++ l2) = lastWm (lastWm w l1) l2 := by
  intro l1
  induction l1 generalizing w with
  | nil => intro l2; rfl
  | cons op rest ih =>
    intro l2
    cases op with
    | setWm v => simp only [List.cons_append, lastWm]; exact ih v l2
    | act e eff => simp only [List.cons_append, lastWm]; exact ih w l2

theorem lastWm_map_act (w : Nat) (e : Entry) :
    ∀ l : List Effect, lastWm w (l.map (ScanOp.act e)) = w := by
  intro l
  induction l with
  | nil => rfl
  | cons eff rest ih => simp only [List.map_cons, lastWm]; exact ih

theorem wmMono_append (w : Nat) :
    ∀ l1 l2 : List ScanOp,
      WmMono w l1 → WmMono (lastWm w l1) l2 → WmMono w (l1 ++ l2) := by
  intro l1
  induction l1 generalizing w with
  | nil => intro l2 _ h2; exact h2
  | cons op rest ih =>
    intro l2 h1 h2
    cases op with
    | setWm v =>
      exact ⟨h1.1, ih v l2 h1.2 h2⟩
    | act e eff =>
      exact ih w l2 h1 h2

theorem wmMono_map_act (w : Nat) (e : Entry) :
    ∀ l : List Effect, WmMono w (l.map (ScanOp.act e)) := by
  intro l
  induction l with
  | nil => trivial
  | cons eff rest ih => exact ih

theorem wmMono_le (l : List ScanOp) : ∀ w : Nat, WmMono w l → w ≤ lastWm w l := by
  induction l with
  | nil => intro w _; exact le_refl w
  | cons op rest ih =>
    intro w h
    cases op with
    | setWm v => exact le_trans h.1 (ih v h.2)
    | act e eff => exact ih w h

theorem scanSteps_lastWm (env : Env) (cfg : Cfg) :
    ∀ (entries : List (Nat × Entry)) (wm : Nat),
      (scanSteps env cfg entries wm).1 = lastWm wm (scanSteps env cfg entries wm).2
  | [], wm => rfl
  | (s, e) :: rest, wm => by
    simp only [scanSteps, lastWm, lastWm_append, lastWm_map_act]
    exact scanSteps_lastWm env cfg rest (max wm (e.ts.getD 0))

theorem scanSteps_wmMono (env : Env) (cfg : Cfg) :
    ∀ (entries : List (Nat × Entry)) (wm : Nat),
      WmMono wm (scanSteps env cfg entries wm).2
  | [], wm => trivial
  | (s, e) :: rest, wm => by
    refine ⟨le_max_left wm (e.ts.getD 0), ?_⟩
    exact wmMono_append _ _ _ (wmMono_map_act _ e _)
      (by rw [lastWm_map_act]; exact scanSteps_wmMono env cfg rest _)

theorem advancedAtWrites_append (w : Nat) :
    ∀ l1 l2 : List ScanOp,
      AdvancedAtWrites w l1 → AdvancedAtWrites (lastWm w l1) l2 →
      AdvancedAtWrites w (l1 ++ l2) := by
  intro l1
  induction l1 generalizing w with
  | nil => intro l2 _ h2; exact h2
  | cons op rest ih =>
    intro l2 h1 h2
    cases op with
    | setWm v => exact ih v l2 h1 h2
    | act e eff => exact ⟨h1.1, ih w l2 h1.2 h2⟩

theorem advancedAtWrites_map_act (w : Nat) (e : Entry) (h : e.ts.getD 0 ≤ w) :
    ∀ l : List Effect, AdvancedAtWrites w (l.map (ScanOp.act e)) := by
  intro l
  induction l with
  | nil => trivial
  | cons eff rest ih => exact ⟨fun _ => h, ih⟩

theorem drainQueue_no_empty (env : Env) (cfg : Cfg) :
    ∀ q : List QItem, QItem.empty ∉ q →
      drainQueue env cfg q = (effectsOfAll env cfg (goodsOf q), [])
  | [], _ => rfl
  | QItem.empty :: rest, h => absurd (List.mem_cons_self _ _) h
  | QItem.bad s :: rest, h => by
    simp only [drainQueue, goodsOf]
    exact drainQueue_no_empty env cfg rest (fun hm => h (List.mem_cons_of_mem _ hm))
  | QItem.good e :: rest, h => by
    simp only [drainQueue, goodsOf, effectsOfAll]
    rw [drainQueue_no_empty env cfg rest (fun hm => h (List.mem_cons_of_mem _ hm))]

theorem collectImgs_no_hit (status : String) (count : Nat) :
    ∀ (items : List PLog) (acc : List String),
      (∀ e ∈ items, ¬ (e.status = some status ∧ e.path.getD "" ≠ "")) →
      collectImgs status count items acc = acc
  | [], acc, _ => rfl
  | e :: rest, acc, h => by
    rw [collectImgs, if_neg (h e (List.mem_cons_self _ _))]
    exact collectImgs_no_hit status count rest acc
      (fun e2 he2 => h e2 (List.mem_cons_of_mem _ he2))

theorem wsTail_no_snapshot (stream : List (Nat × Option String)) :
    ∀ (fuel cursor : Nat), StatsOut.snapshot ∉ wsTail stream fuel cursor := by
  intro fuel
  induction fuel with
  | zero => intro cursor h; cases h
  | succ n ih =>
    intro cursor h
    rw [wsTail] at h
    cases hx : xreadNext stream cursor with
    | none => rw [hx] at h; exact ih cursor h
    | some m =>
      rw [hx] at h
      rcases List.mem_append.mp h with h1 | h2
      · rcases List.mem_map.mp h1 with ⟨d, _, hd⟩
        cases hd
      · exact ih m.1 h2

theorem sseTail_no_snapshot (stream : List (Nat × Option String)) :
    ∀ (fuel cursor : Nat), StatsOut.snapshot ∉ sseTail stream fuel cursor := by
  intro fuel
  induction fuel with
  | zero => intro cursor h; cases h
  | succ n ih =>
    intro cursor h
    rw [sseTail] at h
    cases hx : xreadNext stream cursor with
    | none => rw [hx] at h; exact ih cursor h
    | some m =>
      rw [hx] at h
      rcases List.mem_append.mp h with h1 | h2
      · rcases List.mem_map.mp h1 with ⟨d, _, hd⟩
        cases hd
      · exact ih m.1 h2

theorem zaddsOf_cons_predict (img : Nat) (l : List Effect) :
    zaddsOf (Effect.predict img :: l) = zaddsOf l := rfl

/-! Claim theorems. -/

/-- Claim C1: for every detection event processed with a loaded image, the
result sink writes exactly one record per task in the event's task list, with
`status = task` when `map.get(task, 0) >= threshold` and
`status = "no_" + task` otherwise, where the threshold is the one
process-wide `helmet_conf_thresh` value (default 0.5) applied uniformly; and
when the confidence equals the threshold exactly, the status is the compliant
form (the task name). -/
theorem c1_threshold_policy (env : Env) (cfg : Cfg) (e : Entry) (p : String)
    (img : Nat) (hp : e.path = some p) (hne : p ≠ "")
    (himg : env.readImage (resolvePath env p) = some img)
    (ht : resolvedTasks cfg e ≠ []) :
    zaddsOf (processEntry env cfg e)
      = (resolvedTasks cfg e).map (fun item =>
          { ts := env.now, cam_id := e.cam_id, track_id := e.track_id,
            status :=
              if thresholdOf cfg ≤
                  dictGetD (buildScores env.names (env.boxes img)) item 0
              then item else "no_" ++ item,
            conf := dictGetD (buildScores env.names (env.boxes img)) item 0,
            path := basename (resolvePath env p) })
    ∧ ∀ item : String,
        dictGetD (buildScores env.names (env.boxes img)) item 0 = thresholdOf cfg →
        (if thresholdOf cfg ≤
            dictGetD (buildScores env.names (env.boxes img)) item 0
         then item else "no_" ++ item) = item := by
  constructor
  · rw [processEntry_eq env cfg e p img hp hne himg ht, zaddsOf_cons_predict,
      zaddsOf_processTasks]
    rfl
  · intro item hitem
    rw [hitem, if_pos (le_refl (thresholdOf cfg))]

/-- Witness for C1: on the spec's worked example (helmet at 0.8, vest at 0.3,
default threshold 0.5) the statuses are `helmet` and `no_vest`; and a helmet
confidence of exactly 0.5 yields the compliant status `helmet`. -/
theorem c1_threshold_policy_witness :
    (zaddsOf (processEntry envA cfgA entryA)).map LogRecord.status
        = ["helmet", "no_vest"]
    ∧ (zaddsOf (processEntry envEq cfgA entryH)).map LogRecord.status
        = ["helmet"] := by
  have h1 := (c1_threshold_policy envA cfgA entryA "img1.jpg" 0 rfl (by decide)
    rfl (by decide)).1
  have h2 := (c1_threshold_policy envEq cfgA entryH "img1.jpg" 0 rfl (by decide)
    rfl (by decide)).1
  constructor
  · rw [h1]; decide
  · rw [h2]; decide

/-- Claim C6: an event whose task list resolves (after the process-wide
default fallback) to empty produces no effect at all: no record write, no
counter mutation, and no inference invocation. -/
theorem c6_empty_tasks_skip (env : Env) (cfg : Cfg) (e : Entry)
    (h : resolvedTasks cfg e = []) :
    processEntry env cfg e = [] := by
  simp [processEntry, h]

/-- Witness for C6: an entry without `ppe_tasks` under a config without
`track_ppe` is skipped entirely. -/
theorem c6_empty_tasks_skip_witness : processEntry envA cfgEmpty entryA = [] :=
  c6_empty_tasks_skip envA cfgEmpty entryA rfl

/-- Claim C8: the confidence map built by the inference adapter assigns each
label (looked up with default 0) exactly the maximum confidence over the raw
boxes carrying that label, with no further filtering; a label with no box is
absent from the map. -/
theorem c8_confidence_map_max (names : Nat → String) (boxes : List Box)
    (label : String) :
    dictGetD (buildScores names boxes) label 0
      = (boxes.filter fun b => decide (names b.cls = label)).foldl
          (fun m b => max m b.conf) 0
    ∧ ((∀ b ∈ boxes, names b.cls ≠ label) →
        dictGet (buildScores names boxes) label = none) := by
  constructor
  · have h := dictGetD_foldl_scoreStep names label boxes []
    simpa [buildScores, dictGetD, dictGet] using h
  · intro h
    rw [buildScores, dictGet_foldl_scoreStep_none names label boxes [] h]
    rfl

/-- Witness for C8: over `envA`'s boxes the helmet entry is the maximal
helmet confidence 0.8, and the unseen label `mask` is absent from the map. -/
theorem c8_confidence_map_max_witness :
    dictGetD (buildScores envA.names (envA.boxes 0)) "helmet" 0 = rA
    ∧ dictGet (buildScores envA.names (envA.boxes 0)) "mask" = none := by
  constructor
  · rw [(c8_confidence_map_max envA.names (envA.boxes 0) "helmet").1]; decide
  · exact (c8_confidence_map_max envA.names (envA.boxes 0) "mask").2 (by decide)

/-- Claim C10: the counter increment is keyed solely on the status string's
`no_` prefix test, not on compliance: a monitored task whose own name starts
with `no_` gets its `<status>_count` counter incremented even when compliant
(confidence at or above the threshold), because the compliant status equals
the task name and still passes `startswith("no_")`. -/
theorem c10_counter_keyed_on_status (env : Env) (cfg : Cfg) (e : Entry)
    (p : String) (img : Nat) (item : String)
    (hp : e.path = some p) (hne : p ≠ "")
    (himg : env.readImage (resolvePath env p) = some img)
    (hmem : item ∈ resolvedTasks cfg e)
    (hno : startsWithNo item = true)
    (hcomp : thresholdOf cfg ≤
      dictGetD (buildScores env.names (env.boxes img)) item 0) :
    (taskRecord cfg (buildScores env.names (env.boxes img)) e env.now
        (basename (resolvePath env p)) item).status = item
    ∧ Effect.incr (item ++ "_count") ∈ processEntry env cfg e := by
  have hstat : (taskRecord cfg (buildScores env.names (env.boxes img)) e env.now
      (basename (resolvePath env p)) item).status = item := by
    simp [taskRecord, if_pos hcomp]
  refine ⟨hstat, ?_⟩
  have ht : resolvedTasks cfg e ≠ [] := by
    intro hnil
    rw [hnil] at hmem
    cases hmem
  rw [processEntry_eq env cfg e p img hp hne himg ht]
  refine List.mem_cons_of_mem _ ?_
  refine mem_processTasks_of_mem cfg _ e env.now _ env.hasCb
    (resolvedTasks cfg e) item hmem _ ?_
  rw [taskEffects, hstat, if_pos hno]
  exact List.mem_cons_of_mem _ (List.mem_append_left _ (List.mem_singleton.mpr rfl))

/-- Witness for C10: the compliant `no_phone` task (confidence 0.9 at default
threshold) still increments `no_phone_count`. -/
theorem c10_counter_keyed_on_status_witness :
    Effect.incr ("no_phone" ++ "_count") ∈ processEntry envN cfgN entryA :=
  (c10_counter_keyed_on_status envN cfgN entryA "img1.jpg" 0 "no_phone" rfl
    (by decide) rfl (by decide) (by decide) (by decide)).2

/-- Counterexample to C2 as stated: with two tasks `helmet, vest`, a store
exception raised while persisting the helmet record (not a hard crash) makes
the task loop abort with no effects at all — the vest task, which the
failure-free run evaluates to a `no_vest` record, is never evaluated or
persisted. -/
theorem c2_counterexample :
    processTasksExc cfgA scoresA entryA 100 "img1.jpg" false zFailHelmet
        ["helmet", "vest"] = ([], false)
    ∧ (zaddsOf (processTasksExc cfgA scoresA entryA 100 "img1.jpg" false
        (fun _ => true) ["helmet", "vest"]).1).map LogRecord.status
        = ["helmet", "no_vest"] := by
  decide

/-- Claim C2 amended: task evaluation is NOT isolated per task — the Python
loop body has no exception handling, so a failure persisting one task's
record propagates and aborts processing of every remaining task of the same
event: the trace is exactly the failure-free trace of the tasks before the
failing one, and nothing for the failing task or those after it. -/
theorem c2_failure_aborts_rest (cfg : Cfg) (scores : List (String × ℚ))
    (e : Entry) (now : Nat) (fname : String) (cb : Bool)
    (zaddOk : LogRecord → Bool) (item : String) :
    ∀ (pre post : List String),
      (∀ t ∈ pre, zaddOk (taskRecord cfg scores e now fname t) = true) →
      zaddOk (taskRecord cfg scores e now fname item) = false →
      processTasksExc cfg scores e now fname cb zaddOk (pre ++ item :: post)
        = ((processTasksExc cfg scores e now fname cb (fun _ => true) pre).1,
            false)
  | [], post, _, hfail => by
    simp [processTasksExc, hfail]
  | t :: pre, post, hpre, hfail => by
    have hok : zaddOk (taskRecord cfg scores e now fname t) = true :=
      hpre t (List.mem_cons_self t pre)
    have ih := c2_failure_aborts_rest cfg scores e now fname cb zaddOk item pre
      post (fun t2 ht2 => hpre t2 (List.mem_cons_of_mem t ht2)) hfail
    simp [processTasksExc, hok, ih]

/-- Witness for the amended C2: with `boots` queued after the failing `vest`
task, only the `helmet` effects (the task before the failure) appear. -/
theorem c2_failure_aborts_rest_witness :
    processTasksExc cfgA scoresA entryA 100 "img1.jpg" false zFailVest
        (["helmet"] ++ "vest" :: ["boots"])
      = ((processTasksExc cfgA scoresA entryA 100 "img1.jpg" false
          (fun _ => true) ["helmet"]).1, false) :=
  c2_failure_aborts_rest cfgA scoresA entryA 100 "img1.jpg" false zFailVest
    "vest" ["helmet"] ["boots"] (by decide) (by decide)

/-- Counterexample to C4 as stated: scanning one legacy entry with timestamp
5 from watermark 0 produces a step sequence in which a `ppe_logs` write of
that entry occurs strictly after the watermark was already advanced to cover
its timestamp — so not all of its records are written before the watermark
advances past it. -/
theorem c4_counterexample :
    writeAfterAdvance 0 (scanSteps envA cfgA [(5, entryA)] 0).2 = true := by
  decide

/-- Claim C4 amended: the scan loop advances the watermark
`last_ts = max(last_ts, entry.ts)` immediately BEFORE processing each entry,
not after: in every scan step sequence, at the moment any of an entry's
records is written the watermark in force already covers that entry's
timestamp. -/
theorem c4_watermark_advances_first (env : Env) (cfg : Cfg) :
    ∀ (entries : List (Nat × Entry)) (wm : Nat),
      AdvancedAtWrites wm (scanSteps env cfg entries wm).2
  | [], wm => trivial
  | (s, e) :: rest, wm => by
    show AdvancedAtWrites wm
      (ScanOp.setWm (max wm (e.ts.getD 0)) ::
        ((processEntry env cfg e).map (ScanOp.act e) ++
          (scanSteps env cfg rest (max wm (e.ts.getD 0))).2))
    show AdvancedAtWrites (max wm (e.ts.getD 0))
      ((processEntry env cfg e).map (ScanOp.act e) ++
        (scanSteps env cfg rest (max wm (e.ts.getD 0))).2)
    refine advancedAtWrites_append _ _ _
      (advancedAtWrites_map_act _ e (le_max_right wm (e.ts.getD 0)) _) ?_
    rw [lastWm_map_act]
    exact c4_watermark_advances_first env cfg rest (max wm (e.ts.getD 0))

/-- Claim C5: the watermark is monotonic non-decreasing across any sequence
of worker cycles (queue drains interleaved with legacy-log scans, with new
items and entries arriving in between): every watermark assignment in the
collected step trace is at least the watermark in force before it, and the
final watermark is at least the initial one.  Queue drains perform no
watermark assignment at all (`drainQueue` emits only effects). -/
theorem c5_watermark_monotone (env : Env) (cfg : Cfg) :
    ∀ (ins : List (List QItem × List (Nat × Entry))) (st : WorkerState),
      WmMono st.last_ts (runCyclesT env cfg ins st).2
      ∧ st.last_ts ≤ (runCyclesT env cfg ins st).1.last_ts
  | [], st => ⟨trivial, le_refl _⟩
  | (nq, nl) :: rest, st => by
    have hscan := scanSteps_wmMono env cfg
      ((st.plog ++ nl).filter fun pr => decide (st.last_ts + 1 ≤ pr.1)) st.last_ts
    have hlast := scanSteps_lastWm env cfg
      ((st.plog ++ nl).filter fun pr => decide (st.last_ts + 1 ≤ pr.1)) st.last_ts
    have ih := c5_watermark_monotone env cfg rest
      (runCycle env cfg
        { last_ts := st.last_ts, queue := st.queue ++ nq, plog := st.plog ++ nl }).1
    simp only [runCyclesT, runCycle] at ih ⊢
    refine ⟨?_, ?_⟩
    · refine wmMono_append _ _ _ hscan ?_
      rw [← hlast]
      exact ih.1
    · exact le_trans (hlast.symm ▸ wmMono_le _ _ hscan) ih.2

/-- Counterexample to C3 as stated: an SSE stats subscriber that tails one
stream message receives that message and no full-state snapshot at all — the
`sse_stats` generator contains no snapshot send, so not every subscriber
connection receives exactly one snapshot before its tailing loop delivers a
stream message. -/
theorem c3_counterexample :
    sseStats [(1, some "x")] 1 0 = [StatsOut.msg "data: x\n\n"]
    ∧ StatsOut.snapshot ∉ sseStats [(1, some "x")] 1 0 := by
  decide

/-- Claim C3 amended: only the websocket stats endpoint delivers exactly one
full-state snapshot synchronously before any tailed stream message (its first
output is the snapshot, and its tail loop never emits one); the SSE stats
endpoint delivers no snapshot at all, only tailed stream messages. -/
theorem c3_snapshot_ws_only (stream : List (Nat × Option String))
    (fuel cursor0 : Nat) :
    (wsStats stream fuel cursor0).head? = some StatsOut.snapshot
    ∧ StatsOut.snapshot ∉ wsTail stream fuel cursor0
    ∧ StatsOut.snapshot ∉ sseStats stream fuel cursor0 :=
  ⟨rfl, wsTail_no_snapshot stream fuel cursor0,
    sseTail_no_snapshot stream fuel cursor0⟩

/-- Counterexample to C7 as stated: an empty work-queue payload fails to
parse as JSON (`json.loads("")` raises), yet `if not queued: break` treats it
as queue exhaustion: the drain halts and the next queued (well-formed) item
is left unpopped and unprocessed in this drain, instead of the drain
continuing with the next popped item. -/
theorem c7_counterexample :
    (drainQueue envA cfgA [QItem.empty, QItem.good entryA]).1 = []
    ∧ (drainQueue envA cfgA [QItem.empty, QItem.good entryA]).2
        = [QItem.good entryA] := by
  decide

/-- Claim C7 amended: for every work-queue drain containing no empty (falsy)
payload, each malformed item is discarded with no retry and no requeue, the
drain continues through all remaining items (exactly the parseable ones are
processed, in order, and the queue is fully drained), and the watermark is
unaffected by the queue contents — the cycle's final watermark is determined
by the legacy-log scan alone. -/
theorem c7_malformed_discarded (env : Env) (cfg : Cfg) (q : List QItem)
    (st : WorkerState) (h : QItem.empty ∉ q) :
    (drainQueue env cfg q).1 = effectsOfAll env cfg (goodsOf q)
    ∧ (drainQueue env cfg q).2 = []
    ∧ (runCycle env cfg st).1.last_ts
        = (scanSteps env cfg
            (st.plog.filter fun pr => decide (st.last_ts + 1 ≤ pr.1))
            st.last_ts).1 := by
  refine ⟨?_, ?_, rfl⟩
  · rw [drainQueue_no_empty env cfg q h]
  · rw [drainQueue_no_empty env cfg q h]

/-- Witness for the amended C7: a queue with two malformed payloads around a
good entry drains completely, processing exactly the good entry. -/
theorem c7_malformed_discarded_witness :
    (drainQueue envA cfgA qA).1 = effectsOfAll envA cfgA (goodsOf qA)
    ∧ (drainQueue envA cfgA qA).2 = []
    ∧ (runCycle envA cfgA stA).1.last_ts
        = (scanSteps envA cfgA
            (stA.plog.filter fun pr => decide (stA.last_ts + 1 ≤ pr.1))
            stA.last_ts).1 :=
  c7_malformed_discarded envA cfgA qA stA (by decide)

/-- Claim C9: `latest_images` inspects only the 1001 most recent `ppe_logs`
entries (reverse-range indices 0 through 1000): its result is unchanged when
the log is truncated to that slice, and when no entry of that slice matches,
it returns no image at all — fewer than the requested count — regardless of
matches deeper in the log. -/
theorem c9_deep_matches_missed (log : List PLog) (status : String)
    (count : Nat) :
    latest_images log status count = latest_images (log.take 1001) status count
    ∧ ((∀ e ∈ log.take 1001,
          ¬ (e.status = some status ∧ e.path.getD "" ≠ "")) →
        latest_images log status count = []
        ∧ (0 < count → (latest_images log status count).length < count)) := by
  constructor
  · unfold latest_images
    rw [List.take_take, min_self]
  · intro h
    have he : latest_images log status count = [] :=
      collectImgs_no_hit status count (log.take 1001) [] h
    exact ⟨he, fun hc => by rw [he]; simpa using hc⟩

/-- Witness for C9: a log whose only `no_helmet` match sits at depth 1001
(just past the inspected slice) yields zero images for `count = 5`, even
though a match exists in the full log. -/
theorem c9_deep_matches_missed_witness :
    latest_images logDeep "no_helmet" 5 = []
    ∧ (latest_images logDeep "no_helmet" 5).length < 5 := by
  have ht : logDeep.take 1001 = List.replicate 1001 plogBlank := by
    rw [logDeep]
    exact List.take_left' (List.length_replicate 1001 plogBlank)
  have h : ∀ e ∈ logDeep.take 1001,
      ¬ (e.status = some "no_helmet" ∧ e.path.getD "" ≠ "") := by
    rw [ht]
    intro e he
    rw [show e = plogBlank from List.eq_of_mem_replicate he]
    decide
  have h2 := (c9_deep_matches_missed logDeep "no_helmet" 5).2 h
  exact ⟨h2.1, h2.2 (by decide)⟩

end Zi
